import Mathlib

/-!
Verification of the SCC fungible-token contract (src/SCC-FT/ft/src/lib.rs).

The repository file is a thin wrapper: `Contract::new` / `new_default_meta`
and the init guard are in the source, while the balance ledger, registration
manager, storage accountant and transfer protocol are brought in by the
macros `impl_fungible_token_core!` and `impl_fungible_token_storage!` whose
code is not part of the repository sources. Those parts are modelled from
the specification (sections 3, 4.1 to 4.4).

Balances are unsigned 128-bit integers, embedded as natural numbers with an
explicit bound check where the code checks for overflow.
-/

/-- Account identifiers are opaque strings (host-validated format). -/
abbrev AccountId := String

/-- The largest representable u128 value. -/
def U128_MAX : Nat := 2 ^ 128 - 1

/-- Error taxonomy of the specification (section 7). -/
inductive FtError where
  | AccountNotRegistered
  | InsufficientBalance
  | Overflow
  | SelfTransfer
  | ZeroAmount
  | InsufficientStorageDeposit
  | NonZeroBalance
  | ExplicitIntentRequired
  | InsufficientDepositForStorage
  deriving Repr, DecidableEq

/-- Observability events (section 6): mint, transfer, burn. -/
inductive FtEvent where
  | mint (owner : AccountId) (amount : Nat)
  | transferEv (sender receiver : AccountId) (amount : Nat)
  | burn (account : AccountId) (amount : Nat)
  deriving Repr, DecidableEq

/-- Modelled from the spec: the per-account Registration Record (section 3)
holds the balance of a registered account and the storage deposit backing
its registration. -/
structure AccountRec where
  balance : Nat
  deposit : Nat
  deriving Repr, DecidableEq

/-- Modelled from the spec: the Ledger (section 3) owns the mapping from
account to registration record together with the scalar total supply.
An unregistered account does not appear in the list. -/
structure Ledger where
  accounts : List (AccountId × AccountRec)
  total_supply : Nat
  deriving Repr, DecidableEq

/-- The list of registered account identifiers of an account list. -/
def keys (acc : List (AccountId × AccountRec)) : List AccountId :=
  acc.map (fun p => p.1)

/-- Sum of the recorded balances of an account list. -/
def balSum (acc : List (AccountId × AccountRec)) : Nat :=
  (acc.map (fun p => p.2.balance)).sum

/-- Lookup of the balance recorded for an account; 0 when absent. -/
def balOf (acc : List (AccountId × AccountRec)) (a : AccountId) : Nat :=
  match acc.find? (fun p => p.1 == a) with
  | some p => p.2.balance
  | none => 0

/-- Whether an account is present in an account list. -/
def isReg (acc : List (AccountId × AccountRec)) (a : AccountId) : Bool :=
  (acc.find? (fun p => p.1 == a)).isSome

/-- Replace the balance recorded for an account, keeping its deposit. -/
def setBal (acc : List (AccountId × AccountRec)) (a : AccountId) (v : Nat) :
    List (AccountId × AccountRec) :=
  acc.map (fun p => if p.1 == a then (p.1, { p.2 with balance := v }) else p)

/-- Ledger view of balOf: balance_of of section 4.1; total by construction. -/
def Ledger.balance_of (l : Ledger) (a : AccountId) : Nat :=
  balOf l.accounts a

/-- Whether an account is registered in the ledger. -/
def Ledger.registered (l : Ledger) (a : AccountId) : Bool :=
  isReg l.accounts a

/-- Modelled from the spec: deposit of section 4.1; requires the account to
be registered and fails with Overflow past the u128 ceiling. -/
def internal_deposit (l : Ledger) (a : AccountId) (amount : Nat) :
    Except FtError Ledger :=
  match l.accounts.find? (fun p => p.1 == a) with
  | none => .error .AccountNotRegistered
  | some p =>
      if U128_MAX < p.2.balance + amount then .error .Overflow
      else .ok { l with accounts := setBal l.accounts a (p.2.balance + amount) }

/-- Modelled from the spec: withdraw of section 4.1; requires the account to
be registered and to hold at least the amount. -/
def internal_withdraw (l : Ledger) (a : AccountId) (amount : Nat) :
    Except FtError Ledger :=
  match l.accounts.find? (fun p => p.1 == a) with
  | none => .error .AccountNotRegistered
  | some p =>
      if p.2.balance < amount then .error .InsufficientBalance
      else .ok { l with accounts := setBal l.accounts a (p.2.balance - amount) }

/-- Modelled from the spec: transfer of section 4.1, the atomic combination
of withdraw of the sender and deposit of the receiver; requires distinct
endpoints (SelfTransfer) and a positive amount (ZeroAmount), the checks
applied in the order the specification lists them. -/
def transfer (l : Ledger) (sender receiver : AccountId) (amount : Nat) :
    Except FtError Ledger :=
  if sender == receiver then .error .SelfTransfer
  else if amount == 0 then .error .ZeroAmount
  else do
    let l1 ← internal_withdraw l sender amount
    internal_deposit l1 receiver amount

/-- Modelled from the spec: the simple-transfer entry point of section 4.4;
requires exactly one attached deposit unit as the explicit-intent marker
and otherwise fails with ExplicitIntentRequired. -/
def ft_transfer (l : Ledger) (attached_deposit : Nat)
    (sender receiver : AccountId) (amount : Nat) : Except FtError Ledger :=
  if attached_deposit != 1 then .error .ExplicitIntentRequired
  else transfer l sender receiver amount

/-- Modelled from the spec: the optimistic leg of transfer_and_notify
(section 4.4): the amount moves from sender to receiver before the receiver
hook runs, guarded by the same explicit-intent marker. -/
def transfer_and_notify (l : Ledger) (attached_deposit : Nat)
    (sender receiver : AccountId) (amount : Nat) : Except FtError Ledger :=
  if attached_deposit != 1 then .error .ExplicitIntentRequired
  else transfer l sender receiver amount

/-- Modelled from the spec: minimum storage bound of section 4.2, the cost
of the smallest per-account footprint (bytes times the host price per byte;
the concrete byte count stands in for the host-measured value). -/
def storage_bounds_min : Nat := 125 * 10000000000000000000

/-- Modelled from the spec: register of section 4.2. Registering an already
registered account is a no-op refunding the whole payment; a payment below
the minimum bound fails InsufficientStorageDeposit; otherwise the account
is registered with a zero balance and the minimum deposit, the remainder
refunded. Returns (ledger, registered, refund). -/
def register (l : Ledger) (a : AccountId) (payment : Nat) :
    Except FtError (Ledger × Bool × Nat) :=
  if l.registered a then .ok (l, true, payment)
  else if payment < storage_bounds_min then .error .InsufficientStorageDeposit
  else .ok ({ l with accounts := l.accounts ++ [(a, ⟨0, storage_bounds_min⟩)] },
            true, payment - storage_bounds_min)

/-- Modelled from the spec: unregister of section 4.2. Unregistering an
absent account is a no-op; a nonzero balance without force fails
NonZeroBalance; otherwise the record is removed and the remaining balance
burned (total supply decreases). Returns (ledger, closed, released). -/
def unregister (l : Ledger) (a : AccountId) (force : Bool) :
    Except FtError (Ledger × Bool × Nat) :=
  match l.accounts.find? (fun p => p.1 == a) with
  | none => .ok (l, false, 0)
  | some p =>
      if p.2.balance != 0 && !force then .error .NonZeroBalance
      else .ok ({ accounts := l.accounts.filter (fun q => q.1 != a),
                  total_supply := l.total_supply - p.2.balance },
                true, p.2.balance)

/-- Modelled from the spec: resolution of a suspended transfer_and_notify
(section 4.4). The hook outcome is clamped to the transferred amount; the
refund is capped by the current receiver balance (partial refunds are
accepted policy, not an error); the refund returns to the sender when the
sender is still registered and is otherwise burned (section 3). Returns the
new ledger and used_amount. -/
def ft_resolve_transfer (l : Ledger) (sender receiver : AccountId)
    (amount unused_amount : Nat) : Ledger × Nat :=
  let unused := min unused_amount amount
  let receiver_balance := l.balance_of receiver
  let refund := min unused receiver_balance
  if refund = 0 then (l, amount)
  else
    let l1 : Ledger :=
      { l with accounts := setBal l.accounts receiver (receiver_balance - refund) }
    if l1.registered sender then
      ({ l1 with accounts := setBal l1.accounts sender (l1.balance_of sender + refund) },
       amount - refund)
    else
      ({ l1 with total_supply := l1.total_supply - refund }, amount - refund)

/-- Embeds Contract::new from src/SCC-FT/ft/src/lib.rs: the init guard
(env::state_exists becomes an explicit optional prior state), registration
of the owner, the genesis deposit of the whole supply, and the mint event.
Metadata validation is out of scope per section 1. -/
def Contract.new (oldState : Option Ledger) (owner : AccountId) (supply : Nat) :
    Except String (Ledger × List FtEvent) :=
  if oldState.isSome then .error "Already initialized"
  else
    let l0 : Ledger := { accounts := [], total_supply := 0 }
    let l1 : Ledger := { l0 with accounts := l0.accounts ++ [(owner, ⟨0, 0⟩)] }
    let l2 : Ledger := { l1 with accounts := setBal l1.accounts owner supply,
                                 total_supply := l1.total_supply + supply }
    .ok (l2, [FtEvent.mint owner supply])

/-- Embeds Contract::new_default_meta from src/SCC-FT/ft/src/lib.rs: it
delegates to Contract::new with fixed metadata, which is out of scope. -/
def Contract.new_default_meta (oldState : Option Ledger) (owner : AccountId)
    (supply : Nat) : Except String (Ledger × List FtEvent) :=
  Contract.new oldState owner supply

/-- The exposed mutating operations of the contract (section 6). -/
inductive Op where
  | opRegister (caller : AccountId) (payment : Nat)
  | opUnregister (caller : AccountId) (force : Bool)
  | opTransfer (attached_deposit : Nat) (sender receiver : AccountId) (amount : Nat)
  | opTransferNotify (attached_deposit : Nat) (sender receiver : AccountId) (amount : Nat)
  | opResolve (sender receiver : AccountId) (amount unused : Nat)
  deriving Repr, DecidableEq

/-- One observable step: a failing operation aborts atomically, leaving the
ledger unchanged (section 7); a succeeding one commits its new ledger. -/
def applyOp (l : Ledger) (op : Op) : Ledger :=
  match op with
  | .opRegister c p =>
      match register l c p with
      | .ok r => r.1
      | .error _ => l
  | .opUnregister c f =>
      match unregister l c f with
      | .ok r => r.1
      | .error _ => l
  | .opTransfer d s r a =>
      match ft_transfer l d s r a with
      | .ok l2 => l2
      | .error _ => l
  | .opTransferNotify d s r a =>
      match transfer_and_notify l d s r a with
      | .ok l2 => l2
      | .error _ => l
  | .opResolve s r a u => (ft_resolve_transfer l s r a u).1

/-- States reachable from a genesis initialization by exposed operations. -/
inductive Reachable : Ledger → Prop where
  | genesis (O : AccountId) (S : Nat) (l : Ledger) (evs : List FtEvent) :
      Contract.new none O S = Except.ok (l, evs) → Reachable l
  | step (l : Ledger) (op : Op) : Reachable l → Reachable (applyOp l op)

/-- Modelled from the spec: the Storage Cost Accountant (section 4.3). The
host measures storage usage before and after a mutating operation; when the
usage grew and the attached payment does not cover the growth at the given
price per byte, the whole operation is rolled back (the prior ledger is
kept) and InsufficientDepositForStorage is reported; otherwise the mutated
ledger commits and the excess payment plus any release is refunded. -/
def executeMetered (l : Ledger) (op : Ledger → Ledger)
    (storageUsage : Ledger → Nat) (price payment : Nat) :
    Ledger × Except FtError Nat :=
  let l2 := op l
  let before := storageUsage l
  let after := storageUsage l2
  if before < after then
    if payment < (after - before) * price then
      (l, .error .InsufficientDepositForStorage)
    else (l2, .ok (payment - (after - before) * price))
  else (l2, .ok (payment + (before - after) * price))

/-! Helper lemmas about the account-list primitives. -/

theorem beq_false_not {b : Bool} (h : b = false) : ¬ (b = true) := by
  rw [h]; exact Bool.false_ne_true

theorem keys_cons (p : AccountId × AccountRec) (rest : List (AccountId × AccountRec)) :
    keys (p :: rest) = p.1 :: keys rest := rfl

theorem balSum_cons (p : AccountId × AccountRec) (rest : List (AccountId × AccountRec)) :
    balSum (p :: rest) = p.2.balance + balSum rest := by
  simp [balSum]

theorem setBal_cons_pos (p : AccountId × AccountRec) (rest : List (AccountId × AccountRec))
    (a : AccountId) (v : Nat) (hp : (p.1 == a) = true) :
    setBal (p :: rest) a v = (p.1, { p.2 with balance := v }) :: setBal rest a v := by
  unfold setBal
  rw [List.map_cons, if_pos hp]

theorem setBal_cons_neg (p : AccountId × AccountRec) (rest : List (AccountId × AccountRec))
    (a : AccountId) (v : Nat) (hp : (p.1 == a) = false) :
    setBal (p :: rest) a v = p :: setBal rest a v := by
  unfold setBal
  rw [List.map_cons, if_neg (beq_false_not hp)]

theorem balOf_cons_pos (p : AccountId × AccountRec) (rest : List (AccountId × AccountRec))
    (a : AccountId) (hp : (p.1 == a) = true) :
    balOf (p :: rest) a = p.2.balance := by
  unfold balOf
  rw [List.find?_cons_of_pos (p := fun q => q.1 == a) (a := p) rest hp]

theorem balOf_cons_neg (p : AccountId × AccountRec) (rest : List (AccountId × AccountRec))
    (a : AccountId) (hp : (p.1 == a) = false) :
    balOf (p :: rest) a = balOf rest a := by
  unfold balOf
  rw [List.find?_cons_of_neg (p := fun q => q.1 == a) (a := p) rest (beq_false_not hp)]

theorem isReg_cons_pos (p : AccountId × AccountRec) (rest : List (AccountId × AccountRec))
    (a : AccountId) (hp : (p.1 == a) = true) :
    isReg (p :: rest) a = true := by
  unfold isReg
  rw [List.find?_cons_of_pos (p := fun q => q.1 == a) (a := p) rest hp]
  rfl

theorem isReg_cons_neg (p : AccountId × AccountRec) (rest : List (AccountId × AccountRec))
    (a : AccountId) (hp : (p.1 == a) = false) :
    isReg (p :: rest) a = isReg rest a := by
  unfold isReg
  rw [List.find?_cons_of_neg (p := fun q => q.1 == a) (a := p) rest (beq_false_not hp)]

theorem keys_setBal (acc : List (AccountId × AccountRec)) (a : AccountId) (v : Nat) :
    keys (setBal acc a v) = keys acc := by
  induction acc with
  | nil => rfl
  | cons p rest ih =>
      cases hp : p.1 == a with
      | true => rw [setBal_cons_pos _ _ _ _ hp, keys_cons, keys_cons, ih]
      | false => rw [setBal_cons_neg _ _ _ _ hp, keys_cons, keys_cons, ih]

theorem isReg_setBal (acc : List (AccountId × AccountRec)) (a b : AccountId) (v : Nat) :
    isReg (setBal acc a v) b = isReg acc b := by
  induction acc with
  | nil => rfl
  | cons p rest ih =>
      cases hp : p.1 == a with
      | true =>
          rw [setBal_cons_pos _ _ _ _ hp]
          cases hpb : p.1 == b with
          | true =>
              rw [isReg_cons_pos _ _ _ hpb,
                isReg_cons_pos (p.1, { p.2 with balance := v }) (setBal rest a v) b hpb]
          | false =>
              rw [isReg_cons_neg _ _ _ hpb,
                isReg_cons_neg (p.1, { p.2 with balance := v }) (setBal rest a v) b hpb, ih]
      | false =>
          rw [setBal_cons_neg _ _ _ _ hp]
          cases hpb : p.1 == b with
          | true => rw [isReg_cons_pos _ _ _ hpb, isReg_cons_pos _ _ _ hpb]
          | false => rw [isReg_cons_neg _ _ _ hpb, isReg_cons_neg _ _ _ hpb, ih]

theorem balOf_setBal_self (acc : List (AccountId × AccountRec)) (a : AccountId) (v : Nat)
    (h : isReg acc a = true) : balOf (setBal acc a v) a = v := by
  induction acc with
  | nil => simp [isReg] at h
  | cons p rest ih =>
      cases hp : p.1 == a with
      | true =>
          rw [setBal_cons_pos _ _ _ _ hp,
            balOf_cons_pos (p.1, { p.2 with balance := v }) (setBal rest a v) a hp]
      | false =>
          rw [isReg_cons_neg _ _ _ hp] at h
          rw [setBal_cons_neg _ _ _ _ hp, balOf_cons_neg _ _ _ hp]
          exact ih h

theorem balOf_setBal_ne (acc : List (AccountId × AccountRec)) (a b : AccountId) (v : Nat)
    (h : b ≠ a) : balOf (setBal acc a v) b = balOf acc b := by
  induction acc with
  | nil => rfl
  | cons p rest ih =>
      cases hp : p.1 == a with
      | true =>
          have hpb : (p.1 == b) = false := by
            have h1 := eq_of_beq hp
            exact beq_eq_false_iff_ne.mpr (by rw [h1]; exact fun hh => h hh.symm)
          rw [setBal_cons_pos _ _ _ _ hp,
            balOf_cons_neg (p.1, { p.2 with balance := v }) (setBal rest a v) b hpb,
            balOf_cons_neg _ _ _ hpb]
          exact ih
      | false =>
          rw [setBal_cons_neg _ _ _ _ hp]
          cases hpb : p.1 == b with
          | true => rw [balOf_cons_pos _ _ _ hpb, balOf_cons_pos _ _ _ hpb]
          | false => rw [balOf_cons_neg _ _ _ hpb, balOf_cons_neg _ _ _ hpb, ih]

theorem setBal_not_reg (acc : List (AccountId × AccountRec)) (a : AccountId) (v : Nat)
    (h : isReg acc a = false) : setBal acc a v = acc := by
  induction acc with
  | nil => rfl
  | cons p rest ih =>
      cases hp : p.1 == a with
      | true => rw [isReg_cons_pos _ _ _ hp] at h; cases h
      | false =>
          rw [isReg_cons_neg _ _ _ hp] at h
          rw [setBal_cons_neg _ _ _ _ hp, ih h]

theorem balOf_not_reg (acc : List (AccountId × AccountRec)) (a : AccountId)
    (h : isReg acc a = false) : balOf acc a = 0 := by
  induction acc with
  | nil => rfl
  | cons p rest ih =>
      cases hp : p.1 == a with
      | true => rw [isReg_cons_pos _ _ _ hp] at h; cases h
      | false =>
          rw [isReg_cons_neg _ _ _ hp] at h
          rw [balOf_cons_neg _ _ _ hp, ih h]

theorem find?_key_of_some (acc : List (AccountId × AccountRec)) (a : AccountId)
    (q : AccountId × AccountRec)
    (h : acc.find? (fun p => p.1 == a) = some q) : q ∈ acc ∧ q.1 = a := by
  refine ⟨List.mem_of_find?_eq_some h, ?_⟩
  have h2 := List.find?_some (p := fun q : AccountId × AccountRec => q.1 == a) h
  exact eq_of_beq h2

theorem isReg_of_mem (acc : List (AccountId × AccountRec)) (a : AccountId)
    (r : AccountRec) (h : (a, r) ∈ acc) : isReg acc a = true := by
  induction acc with
  | nil => cases h
  | cons p rest ih =>
      rcases List.mem_cons.mp h with h1 | h1
      · have hp1 : p.1 = a := by rw [← h1]
        exact isReg_cons_pos _ _ _ (by rw [hp1]; exact beq_self_eq_true a)
      · cases hp : p.1 == a with
        | true => exact isReg_cons_pos _ _ _ hp
        | false => rw [isReg_cons_neg _ _ _ hp]; exact ih h1

theorem mem_keys_of_reg (acc : List (AccountId × AccountRec)) (a : AccountId)
    (h : isReg acc a = true) : a ∈ keys acc := by
  unfold isReg at h
  cases hf : acc.find? (fun p => p.1 == a) with
  | none => rw [hf] at h; cases h
  | some q =>
      rcases find?_key_of_some acc a q hf with ⟨hq1, hq2⟩
      exact List.mem_map.mpr ⟨q, hq1, hq2⟩

theorem isReg_false_of_not_mem (acc : List (AccountId × AccountRec)) (a : AccountId)
    (h : a ∉ keys acc) : isReg acc a = false := by
  cases hr : isReg acc a with
  | false => rfl
  | true => exact absurd (mem_keys_of_reg acc a hr) h

theorem not_mem_keys_of_not_reg (acc : List (AccountId × AccountRec)) (a : AccountId)
    (h : isReg acc a = false) : a ∉ keys acc := by
  intro hmem
  unfold keys at hmem
  rcases List.mem_map.mp hmem with ⟨p, hp, hpa⟩
  have := isReg_of_mem acc a p.2 (by rw [← hpa]; exact hp)
  rw [h] at this
  cases this

theorem find?_of_mem_nodup (acc : List (AccountId × AccountRec)) (a : AccountId)
    (r : AccountRec) (hnd : (keys acc).Nodup) (hm : (a, r) ∈ acc) :
    acc.find? (fun q => q.1 == a) = some (a, r) := by
  induction acc with
  | nil => cases hm
  | cons p rest ih =>
      rw [keys_cons, List.nodup_cons] at hnd
      rcases List.mem_cons.mp hm with h1 | h1
      · rw [← h1]
        exact List.find?_cons_of_pos _ (beq_self_eq_true a)
      · have hne : (p.1 == a) = false := by
          apply beq_eq_false_iff_ne.mpr
          intro hpa
          exact hnd.1 (by rw [hpa]; exact List.mem_map.mpr ⟨(a, r), h1, rfl⟩)
        rw [List.find?_cons_of_neg (p := fun q => q.1 == a) (a := p) rest
          (beq_false_not hne)]
        exact ih hnd.2 h1

theorem balOf_of_mem_nodup (acc : List (AccountId × AccountRec)) (a : AccountId)
    (r : AccountRec) (hnd : (keys acc).Nodup) (hm : (a, r) ∈ acc) :
    balOf acc a = r.balance := by
  unfold balOf
  rw [find?_of_mem_nodup acc a r hnd hm]

theorem balance_le_balSum (acc : List (AccountId × AccountRec)) (a : AccountId)
    (r : AccountRec) (hm : (a, r) ∈ acc) : r.balance ≤ balSum acc := by
  induction acc with
  | nil => cases hm
  | cons p rest ih =>
      rw [balSum_cons]
      rcases List.mem_cons.mp hm with h1 | h1
      · rw [← h1]; exact Nat.le_add_right _ _
      · exact le_trans (ih h1) (Nat.le_add_left _ _)

theorem balSum_setBal (acc : List (AccountId × AccountRec)) (a : AccountId)
    (r : AccountRec) (v : Nat) (hnd : (keys acc).Nodup) (hm : (a, r) ∈ acc) :
    balSum (setBal acc a v) + r.balance = balSum acc + v := by
  induction acc with
  | nil => cases hm
  | cons p rest ih =>
      rw [keys_cons, List.nodup_cons] at hnd
      rcases List.mem_cons.mp hm with h1 | h1
      · have hp1 : p.1 = a := by rw [← h1]
        have hp2 : p.2 = r := by rw [← h1]
        have hp : (p.1 == a) = true := by rw [hp1]; exact beq_self_eq_true a
        have hna : a ∉ keys rest := by rw [← hp1]; exact hnd.1
        rw [setBal_cons_pos _ _ _ _ hp, balSum_cons, balSum_cons,
          setBal_not_reg rest a v (isReg_false_of_not_mem rest a hna), hp2]
        simp only []
        omega
      · have hpa : (p.1 == a) = false := by
          apply beq_eq_false_iff_ne.mpr
          intro hpa
          exact hnd.1 (by rw [hpa]; exact List.mem_map.mpr ⟨(a, r), h1, rfl⟩)
        rw [setBal_cons_neg _ _ _ _ hpa, balSum_cons, balSum_cons]
        have := ih hnd.2 h1
        omega

theorem balSum_append_single (acc : List (AccountId × AccountRec))
    (a : AccountId) (r : AccountRec) :
    balSum (acc ++ [(a, r)]) = balSum acc + r.balance := by
  simp [balSum]

theorem keys_append_single (acc : List (AccountId × AccountRec))
    (a : AccountId) (r : AccountRec) :
    keys (acc ++ [(a, r)]) = keys acc ++ [a] := by
  simp [keys]

theorem keys_filter_sublist (acc : List (AccountId × AccountRec))
    (f : AccountId × AccountRec → Bool) :
    (keys (acc.filter f)).Sublist (keys acc) := by
  unfold keys
  exact List.Sublist.map (fun p => p.1) (List.filter_sublist acc)

theorem balSum_filter_out (acc : List (AccountId × AccountRec)) (a : AccountId)
    (r : AccountRec) (hnd : (keys acc).Nodup) (hm : (a, r) ∈ acc) :
    balSum (acc.filter (fun q => q.1 != a)) + r.balance = balSum acc := by
  induction acc with
  | nil => cases hm
  | cons p rest ih =>
      rw [keys_cons, List.nodup_cons] at hnd
      rcases List.mem_cons.mp hm with h1 | h1
      · have hp1 : p.1 = a := by rw [← h1]
        have hp2 : p.2 = r := by rw [← h1]
        have hna : a ∉ keys rest := by rw [← hp1]; exact hnd.1
        have hp : ¬ ((p.1 != a) = true) := by
          rw [hp1]; simp
        have hfil : rest.filter (fun q => q.1 != a) = rest := by
          apply List.filter_eq_self.mpr
          intro q hq
          have hqa : q.1 ≠ a := by
            intro hh
            exact hna (by rw [← hh]; exact List.mem_map.mpr ⟨q, hq, rfl⟩)
          simp [bne_iff_ne, hqa]
        rw [List.filter_cons_of_neg (p := fun q => q.1 != a) (a := p) hp,
          hfil, balSum_cons, hp2]
        omega
      · have hpa : (p.1 == a) = false := by
          apply beq_eq_false_iff_ne.mpr
          intro hpa
          exact hnd.1 (by rw [hpa]; exact List.mem_map.mpr ⟨(a, r), h1, rfl⟩)
        have hp2 : (p.1 != a) = true := by simp [bne, hpa]
        rw [List.filter_cons_of_pos (p := fun q => q.1 != a) (a := p) hp2,
          balSum_cons, balSum_cons]
        have := ih hnd.2 h1
        omega

/-! Shape of a successful transfer. -/

theorem transfer_ok_spec (l l2 : Ledger) (s r : AccountId) (amt : Nat)
    (h : transfer l s r amt = .ok l2) :
    s ≠ r ∧ amt ≠ 0 ∧
    isReg l.accounts s = true ∧ isReg l.accounts r = true ∧
    amt ≤ balOf l.accounts s ∧
    l2.total_supply = l.total_supply ∧
    l2.accounts = setBal (setBal l.accounts s (balOf l.accounts s - amt)) r
      (balOf l.accounts r + amt) := by
  unfold transfer at h
  split at h
  · cases h
  next hsr =>
    split at h
    · cases h
    next ha0 =>
      cases hw : internal_withdraw l s amt with
      | error e => rw [hw] at h; cases h
      | ok l1 =>
          rw [hw] at h
          have hd : internal_deposit l1 r amt = .ok l2 := h
          unfold internal_withdraw at hw
          split at hw
          · cases hw
          next ps hfs =>
            split at hw
            · cases hw
            next hlt =>
              injection hw with hw1
              unfold internal_deposit at hd
              split at hd
              · cases hd
              next pr hfr =>
                split at hd
                · cases hd
                next hov =>
                  injection hd with hd1
                  have hsr2 : s ≠ r := fun he => hsr (by rw [he]; exact beq_self_eq_true r)
                  have ha02 : amt ≠ 0 := fun he => ha0 (by rw [he]; rfl)
                  have hbs : balOf l.accounts s = ps.2.balance := by
                    unfold balOf; rw [hfs]
                  have hregs : isReg l.accounts s = true := by
                    unfold isReg; rw [hfs]; rfl
                  have hl1acc : l1.accounts = setBal l.accounts s (ps.2.balance - amt) := by
                    rw [← hw1]
                  have hl1sup : l1.total_supply = l.total_supply := by
                    rw [← hw1]
                  have hbr : balOf l1.accounts r = pr.2.balance := by
                    unfold balOf; rw [hfr]
                  have hregr1 : isReg l1.accounts r = true := by
                    unfold isReg; rw [hfr]; rfl
                  have hbrl : balOf l.accounts r = pr.2.balance := by
                    rw [← hbr, hl1acc, balOf_setBal_ne _ _ _ _ (fun he => hsr2 he.symm)]
                  have hregr : isReg l.accounts r = true := by
                    rw [← hregr1, hl1acc, isReg_setBal]
                  refine ⟨hsr2, ha02, hregs, hregr, ?_, ?_, ?_⟩
                  · rw [hbs]; omega
                  · rw [← hd1, hl1sup]
                  · rw [← hd1, hl1acc, hbs, hbrl]

theorem mem_of_isReg (acc : List (AccountId × AccountRec)) (a : AccountId)
    (h : isReg acc a = true) : ∃ rec, (a, rec) ∈ acc := by
  unfold isReg at h
  cases hf : acc.find? (fun q => q.1 == a) with
  | none => rw [hf] at h; cases h
  | some q =>
      rcases find?_key_of_some acc a q hf with ⟨hq1, hq2⟩
      exact ⟨q.2, by rw [← hq2, Prod.mk.eta]; exact hq1⟩

theorem isReg_of_balOf_pos (acc : List (AccountId × AccountRec)) (a : AccountId)
    (h : 0 < balOf acc a) : isReg acc a = true := by
  cases hr : isReg acc a with
  | true => rfl
  | false => rw [balOf_not_reg acc a hr] at h; cases h

/-! The global accounting invariant and its preservation. -/

/-- The refund of a resolution: the clamped hook outcome capped by the
current receiver balance (shorthand for the expression in
ft_resolve_transfer). -/
def rfnd (l : Ledger) (r : AccountId) (amt unused : Nat) : Nat :=
  min (min unused amt) (l.balance_of r)

/-- The ledger after the receiver-debit leg of a resolution (shorthand for
the intermediate state in ft_resolve_transfer). -/
def l1res (l : Ledger) (r : AccountId) (amt unused : Nat) : Ledger :=
  { l with accounts := setBal l.accounts r (l.balance_of r - rfnd l r amt unused) }

theorem ft_resolve_transfer_eq (l : Ledger) (s r : AccountId) (amt unused : Nat) :
    ft_resolve_transfer l s r amt unused =
      if rfnd l r amt unused = 0 then (l, amt)
      else if (l1res l r amt unused).registered s then
        ({ l1res l r amt unused with
            accounts := setBal (l1res l r amt unused).accounts s
              ((l1res l r amt unused).balance_of s + rfnd l r amt unused) },
         amt - rfnd l r amt unused)
      else
        ({ l1res l r amt unused with
            total_supply := (l1res l r amt unused).total_supply - rfnd l r amt unused },
         amt - rfnd l r amt unused) := rfl

/-- Distinct registered accounts, and the scalar total supply agrees with
the sum of all recorded balances. -/
def LedgerInv (l : Ledger) : Prop :=
  (keys l.accounts).Nodup ∧ l.total_supply = balSum l.accounts

theorem LedgerInv_register (l : Ledger) (c : AccountId) (pay : Nat) (h : LedgerInv l) :
    LedgerInv (applyOp l (.opRegister c pay)) := by
  simp only [applyOp]
  cases hreg : register l c pay with
  | error e => exact h
  | ok t =>
      show LedgerInv t.1
      unfold register at hreg
      split at hreg
      · injection hreg with h1; rw [← h1]; exact h
      next hnr =>
        split at hreg
        · cases hreg
        · injection hreg with h1
          rw [← h1]
          have hfalse : l.registered c = false := by
            cases hb : l.registered c with
            | false => rfl
            | true => exact absurd hb hnr
          have hna : c ∉ keys l.accounts :=
            not_mem_keys_of_not_reg l.accounts c hfalse
          constructor
          · show (keys (l.accounts ++ [(c, ⟨0, storage_bounds_min⟩)])).Nodup
            rw [keys_append_single]
            refine List.Nodup.append h.1 (List.nodup_singleton c) ?_
            intro x hx hx2
            rw [List.mem_singleton] at hx2
            rw [hx2] at hx
            exact hna hx
          · show l.total_supply = balSum (l.accounts ++ [(c, ⟨0, storage_bounds_min⟩)])
            rw [balSum_append_single, h.2]
            simp

theorem LedgerInv_unregister (l : Ledger) (c : AccountId) (f : Bool) (h : LedgerInv l) :
    LedgerInv (applyOp l (.opUnregister c f)) := by
  simp only [applyOp]
  cases hu : unregister l c f with
  | error e => exact h
  | ok t =>
      show LedgerInv t.1
      unfold unregister at hu
      split at hu
      · injection hu with h1; rw [← h1]; exact h
      next p hfind =>
        split at hu
        · cases hu
        · injection hu with h1
          rw [← h1]
          rcases find?_key_of_some l.accounts c p hfind with ⟨hpmem, hp1⟩
          have hmem : (c, p.2) ∈ l.accounts := by
            rw [← hp1, Prod.mk.eta]; exact hpmem
          constructor
          · show (keys (l.accounts.filter (fun q => q.1 != c))).Nodup
            exact List.Nodup.sublist (keys_filter_sublist l.accounts _) h.1
          · show l.total_supply - p.2.balance =
              balSum (l.accounts.filter (fun q => q.1 != c))
            have h2 := balSum_filter_out l.accounts c p.2 h.1 hmem
            have h3 := balance_le_balSum l.accounts c p.2 hmem
            have hs := h.2
            omega

theorem LedgerInv_transfer_core (l l2 : Ledger) (s r : AccountId) (amt : Nat)
    (h : LedgerInv l) (ht : transfer l s r amt = .ok l2) : LedgerInv l2 := by
  rcases transfer_ok_spec l l2 s r amt ht with
    ⟨hsr, ha0, hregs, hregr, hle, hsup, hacc⟩
  rcases mem_of_isReg l.accounts s hregs with ⟨recs, hmems⟩
  have hbs : balOf l.accounts s = recs.balance :=
    balOf_of_mem_nodup l.accounts s recs h.1 hmems
  have hsum1 := balSum_setBal l.accounts s recs
    (balOf l.accounts s - amt) h.1 hmems
  have hnd1 : (keys (setBal l.accounts s (balOf l.accounts s - amt))).Nodup := by
    rw [keys_setBal]; exact h.1
  have hregr1 : isReg (setBal l.accounts s (balOf l.accounts s - amt)) r = true := by
    rw [isReg_setBal]; exact hregr
  rcases mem_of_isReg _ r hregr1 with ⟨recr, hmemr⟩
  have hbr1 : balOf (setBal l.accounts s (balOf l.accounts s - amt)) r = recr.balance :=
    balOf_of_mem_nodup _ r recr hnd1 hmemr
  have hbr2 : balOf (setBal l.accounts s (balOf l.accounts s - amt)) r =
      balOf l.accounts r :=
    balOf_setBal_ne _ _ _ _ (fun he => hsr he.symm)
  have hsum2 := balSum_setBal (setBal l.accounts s (balOf l.accounts s - amt)) r recr
    (balOf l.accounts r + amt) hnd1 hmemr
  constructor
  · rw [hacc, keys_setBal, keys_setBal]; exact h.1
  · rw [hsup, hacc, h.2]
    have hrle := balance_le_balSum l.accounts s recs hmems
    omega

theorem LedgerInv_transfer (l : Ledger) (d : Nat) (s r : AccountId) (amt : Nat)
    (h : LedgerInv l) : LedgerInv (applyOp l (.opTransfer d s r amt)) := by
  simp only [applyOp]
  cases hft : ft_transfer l d s r amt with
  | error e => exact h
  | ok l2 =>
      unfold ft_transfer at hft
      split at hft
      · cases hft
      · exact LedgerInv_transfer_core l l2 s r amt h hft

theorem LedgerInv_transfer_notify (l : Ledger) (d : Nat) (s r : AccountId) (amt : Nat)
    (h : LedgerInv l) : LedgerInv (applyOp l (.opTransferNotify d s r amt)) := by
  simp only [applyOp]
  cases hft : transfer_and_notify l d s r amt with
  | error e => exact h
  | ok l2 =>
      unfold transfer_and_notify at hft
      split at hft
      · cases hft
      · exact LedgerInv_transfer_core l l2 s r amt h hft

theorem LedgerInv_resolve (l : Ledger) (s r : AccountId) (amt unused : Nat)
    (h : LedgerInv l) : LedgerInv (applyOp l (.opResolve s r amt unused)) := by
  have happ : applyOp l (.opResolve s r amt unused) =
      (ft_resolve_transfer l s r amt unused).1 := rfl
  rw [happ, ft_resolve_transfer_eq]
  split
  · exact h
  next hrf =>
    have hrpos : 0 < rfnd l r amt unused := Nat.pos_of_ne_zero hrf
    have hrble : rfnd l r amt unused ≤ l.balance_of r := Nat.min_le_right _ _
    have hbpos : 0 < l.balance_of r := lt_of_lt_of_le hrpos hrble
    have hregr : isReg l.accounts r = true := isReg_of_balOf_pos _ _ hbpos
    rcases mem_of_isReg l.accounts r hregr with ⟨recr, hmemr⟩
    have hbr : balOf l.accounts r = recr.balance :=
      balOf_of_mem_nodup l.accounts r recr h.1 hmemr
    have hsum1 := balSum_setBal l.accounts r recr
      (l.balance_of r - rfnd l r amt unused) h.1 hmemr
    have hl1acc : (l1res l r amt unused).accounts =
        setBal l.accounts r (l.balance_of r - rfnd l r amt unused) := rfl
    have hl1sup : (l1res l r amt unused).total_supply = l.total_supply := rfl
    have hnd1 : (keys (l1res l r amt unused).accounts).Nodup := by
      rw [hl1acc, keys_setBal]; exact h.1
    have hrsum := balance_le_balSum l.accounts r recr hmemr
    split
    next hregs =>
      rcases mem_of_isReg _ s hregs with ⟨recs, hmems⟩
      have hbs2 : (l1res l r amt unused).balance_of s = recs.balance :=
        balOf_of_mem_nodup _ s recs hnd1 hmems
      have hsum2 := balSum_setBal (l1res l r amt unused).accounts s recs
        ((l1res l r amt unused).balance_of s + rfnd l r amt unused) hnd1 hmems
      constructor
      · show (keys (setBal (l1res l r amt unused).accounts s
          ((l1res l r amt unused).balance_of s + rfnd l r amt unused))).Nodup
        rw [keys_setBal]; exact hnd1
      · show l.total_supply = balSum (setBal (l1res l r amt unused).accounts s
          ((l1res l r amt unused).balance_of s + rfnd l r amt unused))
        have hlb : l.balance_of r = recr.balance := hbr
        have hs := h.2
        have hbal : balSum (l1res l r amt unused).accounts + recr.balance =
            balSum l.accounts + (l.balance_of r - rfnd l r amt unused) := by
          rw [hl1acc]; exact hsum1
        omega
    · constructor
      · exact hnd1
      · show (l1res l r amt unused).total_supply - rfnd l r amt unused =
          balSum (l1res l r amt unused).accounts
        have hlb : l.balance_of r = recr.balance := hbr
        have hs := h.2
        have hbal : balSum (l1res l r amt unused).accounts + recr.balance =
            balSum l.accounts + (l.balance_of r - rfnd l r amt unused) := by
          rw [hl1acc]; exact hsum1
        rw [hl1sup]
        omega

theorem LedgerInv_applyOp (l : Ledger) (op : Op) (h : LedgerInv l) :
    LedgerInv (applyOp l op) := by
  cases op with
  | opRegister c p => exact LedgerInv_register l c p h
  | opUnregister c f => exact LedgerInv_unregister l c f h
  | opTransfer d s r a => exact LedgerInv_transfer l d s r a h
  | opTransferNotify d s r a => exact LedgerInv_transfer_notify l d s r a h
  | opResolve s r a u => exact LedgerInv_resolve l s r a u h

/-! Genesis and reachability. -/

theorem contract_new_none (O : AccountId) (S : Nat) :
    Contract.new none O S =
      .ok ({ accounts := [(O, ⟨S, 0⟩)], total_supply := S }, [FtEvent.mint O S]) := by
  unfold Contract.new
  have hset : setBal [(O, (⟨0, 0⟩ : AccountRec))] O S = [(O, ⟨S, 0⟩)] := by
    rw [setBal_cons_pos (O, ⟨0, 0⟩) [] O S (beq_self_eq_true O)]
    rfl
  simp [hset]

theorem LedgerInv_genesis (O : AccountId) (S : Nat) :
    LedgerInv { accounts := [(O, ⟨S, 0⟩)], total_supply := S } := by
  constructor
  · show ([O] : List AccountId).Nodup
    exact List.nodup_singleton O
  · show S = balSum [(O, ⟨S, 0⟩)]
    rw [balSum_cons]
    simp [balSum]

theorem LedgerInv_reachable (l : Ledger) (h : Reachable l) : LedgerInv l := by
  induction h with
  | genesis O S l2 evs heq =>
      rw [contract_new_none O S] at heq
      injection heq with h1
      injection h1 with h2 h3
      rw [← h2]
      exact LedgerInv_genesis O S
  | step l2 op h2 ih => exact LedgerInv_applyOp l2 op ih

theorem balSum_eq_keys_map (acc : List (AccountId × AccountRec))
    (hnd : (keys acc).Nodup) :
    ((keys acc).map (fun a => balOf acc a)).sum = balSum acc := by
  unfold keys balSum
  rw [List.map_map]
  apply congrArg List.sum
  apply List.map_congr_left
  intro p hp
  show balOf acc p.1 = p.2.balance
  exact balOf_of_mem_nodup acc p.1 p.2 hnd (by rw [Prod.mk.eta]; exact hp)

theorem applyOp_supply_le (l : Ledger) (op : Op) :
    (applyOp l op).total_supply ≤ l.total_supply := by
  cases op with
  | opRegister c pay =>
      simp only [applyOp]
      cases hreg : register l c pay with
      | error e => exact Nat.le_refl _
      | ok t =>
          show t.1.total_supply ≤ l.total_supply
          unfold register at hreg
          split at hreg
          · injection hreg with h1; rw [← h1]
          · split at hreg
            · cases hreg
            · injection hreg with h1; rw [← h1]
  | opUnregister c f =>
      simp only [applyOp]
      cases hu : unregister l c f with
      | error e => exact Nat.le_refl _
      | ok t =>
          show t.1.total_supply ≤ l.total_supply
          unfold unregister at hu
          split at hu
          · injection hu with h1; rw [← h1]
          · split at hu
            · cases hu
            · injection hu with h1; rw [← h1]; exact Nat.sub_le _ _
  | opTransfer d s r a =>
      simp only [applyOp]
      cases hft : ft_transfer l d s r a with
      | error e => exact Nat.le_refl _
      | ok l2 =>
          show l2.total_supply ≤ l.total_supply
          unfold ft_transfer at hft
          split at hft
          · cases hft
          · rcases transfer_ok_spec l l2 s r a hft with ⟨_, _, _, _, _, hsup, _⟩
            rw [hsup]
  | opTransferNotify d s r a =>
      simp only [applyOp]
      cases hft : transfer_and_notify l d s r a with
      | error e => exact Nat.le_refl _
      | ok l2 =>
          show l2.total_supply ≤ l.total_supply
          unfold transfer_and_notify at hft
          split at hft
          · cases hft
          · rcases transfer_ok_spec l l2 s r a hft with ⟨_, _, _, _, _, hsup, _⟩
            rw [hsup]
  | opResolve s r a u =>
      have happ : applyOp l (.opResolve s r a u) = (ft_resolve_transfer l s r a u).1 := rfl
      rw [happ, ft_resolve_transfer_eq]
      split
      · exact Nat.le_refl _
      · split
        · exact Nat.le_refl _
        · exact Nat.sub_le _ _

/-! Claim theorems. -/

/-- C1: Global supply invariant: in every state reachable from genesis by
any sequence of the exposed operations (register, unregister, transfer,
transfer_and_notify and its resolution), the total supply equals the sum of
balance_of over all registered accounts. -/
theorem claim_supply_invariant (l : Ledger) (h : Reachable l) :
    l.total_supply = ((keys l.accounts).map (fun a => l.balance_of a)).sum := by
  have hi := LedgerInv_reachable l h
  rw [hi.2]
  exact (balSum_eq_keys_map l.accounts hi.1).symm

/-- Witness for C1 at a concrete reachable state. -/
theorem claim_supply_invariant_witness :
    (Ledger.mk [("o", ⟨5, 0⟩)] 5).total_supply =
      ((keys (Ledger.mk [("o", ⟨5, 0⟩)] 5).accounts).map
        (fun a => (Ledger.mk [("o", ⟨5, 0⟩)] 5).balance_of a)).sum :=
  claim_supply_invariant (Ledger.mk [("o", ⟨5, 0⟩)] 5)
    (Reachable.genesis "o" 5 (Ledger.mk [("o", ⟨5, 0⟩)] 5) [FtEvent.mint "o" 5] rfl)

/-- C2: Genesis correctness: initialization with owner O and supply S
registers the owner, sets total supply and the owner balance to S, and
emits the mint event for (O, S); no later exposed operation ever increases
the total supply (mint is genesis-only). -/
theorem claim_genesis_correct :
    (∀ (O : AccountId) (S : Nat),
      ∃ l evs, Contract.new none O S = Except.ok (l, evs) ∧
        l.registered O = true ∧ l.total_supply = S ∧ l.balance_of O = S ∧
        FtEvent.mint O S ∈ evs) ∧
    (∀ (l : Ledger) (op : Op), (applyOp l op).total_supply ≤ l.total_supply) := by
  constructor
  · intro O S
    refine ⟨{ accounts := [(O, ⟨S, 0⟩)], total_supply := S }, [FtEvent.mint O S],
      contract_new_none O S, ?_, rfl, ?_, ?_⟩
    · show isReg [(O, ⟨S, 0⟩)] O = true
      exact isReg_cons_pos (O, ⟨S, 0⟩) [] O (beq_self_eq_true O)
    · show balOf [(O, ⟨S, 0⟩)] O = S
      rw [balOf_cons_pos (O, ⟨S, 0⟩) [] O (beq_self_eq_true O)]
    · exact List.mem_singleton.mpr rfl
  · intro l op
    exact applyOp_supply_le l op

/-- C10: Initialization can occur at most once: calling new (or
new_default_meta) when contract state already exists fails with
"Already initialized" and creates no state. -/
theorem claim_init_guard (l : Ledger) (O : AccountId) (S : Nat) :
    Contract.new (some l) O S = .error "Already initialized" ∧
    Contract.new_default_meta (some l) O S = .error "Already initialized" :=
  ⟨rfl, rfl⟩

/-- C7: Registration idempotence: registering an already registered account
never fails, changes nothing in the ledger (no balance or deposit change)
and refunds the entire attached payment. -/
theorem claim_register_idempotent (l : Ledger) (a : AccountId) (payment : Nat)
    (h : l.registered a = true) :
    register l a payment = .ok (l, true, payment) := by
  unfold register
  rw [if_pos h]

/-- Witness for C7 on a concrete registered account. -/
theorem claim_register_idempotent_witness :
    (Ledger.mk [("a", ⟨7, 3⟩)] 7).registered "a" = true ∧
    register (Ledger.mk [("a", ⟨7, 3⟩)] 7) "a" 42 =
      .ok (Ledger.mk [("a", ⟨7, 3⟩)] 7, true, 42) :=
  ⟨rfl, claim_register_idempotent (Ledger.mk [("a", ⟨7, 3⟩)] 7) "a" 42 rfl⟩

/-- C8: balance_of totality: balance_of never fails (it is a total
function by construction), returns 0 for an unregistered account, and
returns the recorded balance of a registered account. -/
theorem claim_balance_of_total (l : Ledger) (a : AccountId) :
    (l.registered a = false → l.balance_of a = 0) ∧
    (∀ r : AccountRec, (keys l.accounts).Nodup → (a, r) ∈ l.accounts →
      l.balance_of a = r.balance) := by
  constructor
  · intro h
    exact balOf_not_reg l.accounts a h
  · intro r hnd hm
    exact balOf_of_mem_nodup l.accounts a r hnd hm

/-- Witness for C8 on an unregistered and on a registered account. -/
theorem claim_balance_of_total_witness :
    ((Ledger.mk [] 0).registered "c" = false ∧ (Ledger.mk [] 0).balance_of "c" = 0) ∧
    ((keys (Ledger.mk [("b", ⟨4, 0⟩)] 4).accounts).Nodup ∧
      (Ledger.mk [("b", ⟨4, 0⟩)] 4).balance_of "b" = 4) :=
  ⟨⟨rfl, (claim_balance_of_total (Ledger.mk [] 0) "c").1 rfl⟩,
   ⟨by decide,
    (claim_balance_of_total (Ledger.mk [("b", ⟨4, 0⟩)] 4) "b").2 ⟨4, 0⟩ (by decide)
      (List.mem_singleton.mpr rfl)⟩⟩

/-- C9: Explicit-intent marker: a simple transfer can only succeed when
exactly one deposit unit is attached; with the marker absent it fails with
ExplicitIntentRequired and the ledger is unchanged. -/
theorem claim_explicit_intent (l : Ledger) (s r : AccountId) (amt : Nat) :
    (∀ (d : Nat) (l2 : Ledger), ft_transfer l d s r amt = .ok l2 → d = 1) ∧
    ft_transfer l 0 s r amt = .error .ExplicitIntentRequired ∧
    applyOp l (.opTransfer 0 s r amt) = l := by
  refine ⟨?_, rfl, ?_⟩
  · intro d l2 h
    unfold ft_transfer at h
    split at h
    · cases h
    next hd =>
      by_contra hne
      exact hd (bne_iff_ne.mpr hne)
  · simp only [applyOp]
    rw [show ft_transfer l 0 s r amt = .error .ExplicitIntentRequired from rfl]

/-- Witness for C9 on a concrete transfer with and without the marker. -/
theorem claim_explicit_intent_witness :
    (ft_transfer (Ledger.mk [("a", ⟨5, 0⟩), ("b", ⟨0, 0⟩)] 5) 1 "a" "b" 2 =
      .ok (Ledger.mk [("a", ⟨3, 0⟩), ("b", ⟨2, 0⟩)] 5)) ∧ (1 = 1) ∧
    ft_transfer (Ledger.mk [("a", ⟨5, 0⟩), ("b", ⟨0, 0⟩)] 5) 0 "a" "b" 2 =
      .error .ExplicitIntentRequired :=
  ⟨rfl,
   (claim_explicit_intent (Ledger.mk [("a", ⟨5, 0⟩), ("b", ⟨0, 0⟩)] 5) "a" "b" 2).1 1
     (Ledger.mk [("a", ⟨3, 0⟩), ("b", ⟨2, 0⟩)] 5) rfl,
   (claim_explicit_intent (Ledger.mk [("a", ⟨5, 0⟩), ("b", ⟨0, 0⟩)] 5) "a" "b" 2).2.1⟩

/-- C5: Transfer conservation and frame: a successful simple transfer
keeps the sum of the two endpoint balances, leaves every other account
balance unchanged, and keeps the total supply. -/
theorem claim_transfer_conservation (l l2 : Ledger) (d : Nat) (s r : AccountId)
    (amt : Nat) (h : ft_transfer l d s r amt = .ok l2) :
    l2.balance_of s + l2.balance_of r = l.balance_of s + l.balance_of r ∧
    (∀ c, c ≠ s → c ≠ r → l2.balance_of c = l.balance_of c) ∧
    l2.total_supply = l.total_supply := by
  have ht : transfer l s r amt = .ok l2 := by
    unfold ft_transfer at h
    split at h
    · cases h
    · exact h
  rcases transfer_ok_spec l l2 s r amt ht with ⟨hsr, ha0, hregs, hregr, hle, hsup, hacc⟩
  refine ⟨?_, ?_, hsup⟩
  · have e1 : balOf l2.accounts s = balOf l.accounts s - amt := by
      rw [hacc, balOf_setBal_ne _ _ _ _ hsr, balOf_setBal_self _ _ _ hregs]
    have e2 : balOf l2.accounts r = balOf l.accounts r + amt := by
      rw [hacc]
      rw [balOf_setBal_self _ _ _ (by rw [isReg_setBal]; exact hregr)]
    show balOf l2.accounts s + balOf l2.accounts r =
      balOf l.accounts s + balOf l.accounts r
    rw [e1, e2]
    omega
  · intro c hcs hcr
    show balOf l2.accounts c = balOf l.accounts c
    rw [hacc, balOf_setBal_ne _ _ _ _ hcr, balOf_setBal_ne _ _ _ _ hcs]

/-- Witness for C5 on a concrete successful transfer. -/
theorem claim_transfer_conservation_witness :
    (ft_transfer (Ledger.mk [("a", ⟨10, 0⟩), ("b", ⟨1, 0⟩)] 11) 1 "a" "b" 4 =
      .ok (Ledger.mk [("a", ⟨6, 0⟩), ("b", ⟨5, 0⟩)] 11)) ∧
    (Ledger.mk [("a", ⟨6, 0⟩), ("b", ⟨5, 0⟩)] 11).balance_of "a" +
        (Ledger.mk [("a", ⟨6, 0⟩), ("b", ⟨5, 0⟩)] 11).balance_of "b" =
      (Ledger.mk [("a", ⟨10, 0⟩), ("b", ⟨1, 0⟩)] 11).balance_of "a" +
        (Ledger.mk [("a", ⟨10, 0⟩), ("b", ⟨1, 0⟩)] 11).balance_of "b" :=
  ⟨rfl, (claim_transfer_conservation (Ledger.mk [("a", ⟨10, 0⟩), ("b", ⟨1, 0⟩)] 11)
    (Ledger.mk [("a", ⟨6, 0⟩), ("b", ⟨5, 0⟩)] 11) 1 "a" "b" 4 rfl).1⟩

/-- Counterexample for C6 as frozen: with sender equal to receiver and a
zero amount, the transfer fails with SelfTransfer, so the claim that
transfer(A, B, 0) always fails with ZeroAmount is false at A = B. -/
theorem claim_transfer_preconditions_cex :
    transfer (Ledger.mk [] 0) "a" "a" 0 ≠ Except.error FtError.ZeroAmount := by
  intro h
  have h2 : (Except.error FtError.SelfTransfer : Except FtError Ledger) =
      Except.error FtError.ZeroAmount := by
    rw [← h]
    rfl
  injection h2 with h3
  cases h3

/-- C6 (amended): transfer(A, A, amount) always fails with SelfTransfer;
for distinct endpoints, transfer(A, B, 0) always fails with ZeroAmount
(the self check takes precedence when both apply); a failing transfer
leaves the ledger unchanged. -/
theorem claim_transfer_preconditions :
    (∀ (l : Ledger) (a : AccountId) (amt : Nat),
      transfer l a a amt = .error .SelfTransfer) ∧
    (∀ (l : Ledger) (a b : AccountId), a ≠ b →
      transfer l a b 0 = .error .ZeroAmount) ∧
    (∀ (l : Ledger) (d : Nat) (a : AccountId) (amt : Nat),
      applyOp l (.opTransfer d a a amt) = l) ∧
    (∀ (l : Ledger) (d : Nat) (a b : AccountId),
      applyOp l (.opTransfer d a b 0) = l) := by
  have hself : ∀ (l : Ledger) (a : AccountId) (amt : Nat),
      transfer l a a amt = .error .SelfTransfer := by
    intro l a amt
    unfold transfer
    rw [if_pos (beq_self_eq_true a)]
  have hzero : ∀ (l : Ledger) (a b : AccountId), a ≠ b →
      transfer l a b 0 = .error .ZeroAmount := by
    intro l a b hne
    unfold transfer
    rw [if_neg (beq_false_not (beq_eq_false_iff_ne.mpr hne)),
      if_pos (beq_self_eq_true 0)]
  refine ⟨hself, hzero, ?_, ?_⟩
  · intro l d a amt
    simp only [applyOp]
    cases hft : ft_transfer l d a a amt with
    | error e => rfl
    | ok l2 =>
        exfalso
        unfold ft_transfer at hft
        split at hft
        · cases hft
        · rw [hself l a amt] at hft; cases hft
  · intro l d a b
    simp only [applyOp]
    cases hft : ft_transfer l d a b 0 with
    | error e => rfl
    | ok l2 =>
        exfalso
        unfold ft_transfer at hft
        split at hft
        · cases hft
        · by_cases hab : a = b
          · rw [hab, hself l b 0] at hft; cases hft
          · rw [hzero l a b hab] at hft; cases hft

/-- Witness for C6 (amended) on concrete inputs. -/
theorem claim_transfer_preconditions_witness :
    transfer (Ledger.mk [] 0) "a" "a" 5 = .error .SelfTransfer ∧
    ("a" ≠ "b") ∧ transfer (Ledger.mk [] 0) "a" "b" 0 = .error .ZeroAmount :=
  ⟨claim_transfer_preconditions.1 (Ledger.mk [] 0) "a" 5,
   by decide,
   claim_transfer_preconditions.2.1 (Ledger.mk [] 0) "a" "b" (by decide)⟩

/-- C3: Notify-transfer resolution: for a suspended transfer_and_notify
(distinct sender and receiver, sender still registered) with hook outcome
unused not exceeding the amount, the resolution never fails, moves
min(unused, current receiver balance) from the receiver back to the
sender, keeps the total supply, and returns amount minus the actual
refund. -/
theorem claim_resolve_refund (l : Ledger) (s r : AccountId) (amt unused : Nat)
    (hu : unused ≤ amt) (hsr : s ≠ r) (hregs : l.registered s = true) :
    (ft_resolve_transfer l s r amt unused).2 =
      amt - min unused (l.balance_of r) ∧
    (ft_resolve_transfer l s r amt unused).1.balance_of r =
      l.balance_of r - min unused (l.balance_of r) ∧
    (ft_resolve_transfer l s r amt unused).1.balance_of s =
      l.balance_of s + min unused (l.balance_of r) ∧
    (ft_resolve_transfer l s r amt unused).1.total_supply = l.total_supply := by
  have hmin : rfnd l r amt unused = min unused (l.balance_of r) := by
    unfold rfnd
    rw [Nat.min_eq_left hu]
  rw [ft_resolve_transfer_eq, ← hmin]
  split
  next hrf =>
    refine ⟨?_, ?_, ?_, rfl⟩
    · show amt = amt - rfnd l r amt unused
      omega
    · show l.balance_of r = l.balance_of r - rfnd l r amt unused
      omega
    · show l.balance_of s = l.balance_of s + rfnd l r amt unused
      omega
  next hrf =>
    have hrpos : 0 < rfnd l r amt unused := Nat.pos_of_ne_zero hrf
    have hrble : rfnd l r amt unused ≤ l.balance_of r := Nat.min_le_right _ _
    have hbpos : 0 < l.balance_of r := lt_of_lt_of_le hrpos hrble
    have hregr : isReg l.accounts r = true := isReg_of_balOf_pos _ _ hbpos
    have hregs1 : isReg (l1res l r amt unused).accounts s = true := by
      show isReg (setBal l.accounts r (l.balance_of r - rfnd l r amt unused)) s = true
      rw [isReg_setBal]; exact hregs
    split
    next hreg2 =>
      refine ⟨rfl, ?_, ?_, rfl⟩
      · show balOf (setBal (l1res l r amt unused).accounts s
            ((l1res l r amt unused).balance_of s + rfnd l r amt unused)) r =
          l.balance_of r - rfnd l r amt unused
        rw [balOf_setBal_ne _ _ _ _ (fun he => hsr he.symm)]
        show balOf (setBal l.accounts r (l.balance_of r - rfnd l r amt unused)) r = _
        exact balOf_setBal_self _ _ _ hregr
      · show balOf (setBal (l1res l r amt unused).accounts s
            ((l1res l r amt unused).balance_of s + rfnd l r amt unused)) s =
          l.balance_of s + rfnd l r amt unused
        rw [balOf_setBal_self _ _ _ hregs1]
        have hbs1 : (l1res l r amt unused).balance_of s = l.balance_of s := by
          show balOf (setBal l.accounts r (l.balance_of r - rfnd l r amt unused)) s = _
          exact balOf_setBal_ne _ _ _ _ hsr
        rw [hbs1]
    next hreg2 => exact absurd hregs1 hreg2

/-- Witness for C3: receiver declines 3 of 5 units and can still cover
them, so 3 units return to the sender and used_amount is 2. -/
theorem claim_resolve_refund_witness :
    (3 ≤ 5 ∧ "s" ≠ "r" ∧
      (Ledger.mk [("s", ⟨10, 0⟩), ("r", ⟨8, 0⟩)] 18).registered "s" = true) ∧
    (ft_resolve_transfer (Ledger.mk [("s", ⟨10, 0⟩), ("r", ⟨8, 0⟩)] 18)
        "s" "r" 5 3).2 =
      5 - min 3 ((Ledger.mk [("s", ⟨10, 0⟩), ("r", ⟨8, 0⟩)] 18).balance_of "r") :=
  ⟨⟨by decide, by decide, rfl⟩,
   (claim_resolve_refund (Ledger.mk [("s", ⟨10, 0⟩), ("r", ⟨8, 0⟩)] 18)
     "s" "r" 5 3 (by decide) (by decide) rfl).1⟩

/-- C4: Storage-cost atomic rollback: when the host-measured usage grew
and the attached payment does not cover the growth at the given price, the
metered execution fails with InsufficientDepositForStorage and the caller
observes the original ledger, every mutation of the wrapped operation
rolled back. -/
theorem claim_storage_rollback (l : Ledger) (op : Ledger → Ledger)
    (su : Ledger → Nat) (price payment : Nat)
    (h1 : su l < su (op l)) (h2 : payment < (su (op l) - su l) * price) :
    executeMetered l op su price payment =
      (l, .error .InsufficientDepositForStorage) := by
  unfold executeMetered
  rw [if_pos h1, if_pos h2]

/-- Witness for C4: adding one account entry with payment below the cost
of one extra storage unit rolls back to the empty ledger. -/
theorem claim_storage_rollback_witness :
    ((fun m : Ledger => m.accounts.length) (Ledger.mk [] 0) <
      (fun m : Ledger => m.accounts.length)
        ((fun m : Ledger => Ledger.mk (m.accounts ++ [("x", ⟨0, 0⟩)]) m.total_supply)
          (Ledger.mk [] 0))) ∧
    executeMetered (Ledger.mk [] 0)
      (fun m => Ledger.mk (m.accounts ++ [("x", ⟨0, 0⟩)]) m.total_supply)
      (fun m => m.accounts.length) 10 5 =
      (Ledger.mk [] 0, .error .InsufficientDepositForStorage) :=
  ⟨by decide,
   claim_storage_rollback (Ledger.mk [] 0)
     (fun m => Ledger.mk (m.accounts ++ [("x", ⟨0, 0⟩)]) m.total_supply)
     (fun m => m.accounts.length) 10 5 (by decide) (by decide)⟩
